import Mathlib

/-!
Verification of the DNS-migration core of the repository: the record
aggregation in `src/__main__.py` (class `DnsRecord`, the zone loop, the
`resource_list` / `missed_records` accumulation) and the paginated
OpenProvider client in `src/lookup_zones.py` (`OpenProvider.get_zone`).

Python values are embedded shallowly: dict fields of a raw record become
the fields of `SourceRecord`; the Python `dict` `resource_list` (which
preserves insertion order and updates in place) becomes an association
list; a raised exception becomes `Except.error`; the external
`akamai.DnsRecord(...)` provisioning call becomes a `ProvisionedRecord`
value, with `none` standing for a crash (IndexError / ValueError) while
building the call's arguments.
-/

/-- `TTL = 3600` from `src/__main__.py` line 9. -/
def TTL : Int := 3600

/-- `LIMIT = 255` from `src/__main__.py` line 10. -/
def LIMIT : Nat := 255

/-- One raw DNS entry as delivered by the OpenProvider API: the dict keys
`name`, `type`, `value` are always present; `prio` and `ttl` may be absent
(`record.get` with a default), which `Option` models. -/
structure SourceRecord where
  name : String
  rtype : String
  value : String
  prio : Option Int := none
  ttl : Option Int := none
deriving DecidableEq

/-- The in-memory `DnsRecord` object of `src/__main__.py` (its `__init__`
fields). `zone` holds the name of the pulumi zone resource the record
belongs to. -/
structure DnsRecord where
  resource_name : String
  name : String
  rtype : String
  targets : List String
  ttl : Int
  zone : String
  prio : Option Int
deriving DecidableEq

/-- `DnsRecord.__init__`: seeds the object from a raw record, defaulting
`ttl` to `TTL` only when the key is absent (`record.get("ttl", TTL)`), and
`prio` to `None` when absent; `append_target(record["value"])` leaves
`targets = [value]`. -/
def DnsRecord.init (resource_name : String) (zone : String) (record : SourceRecord) :
    DnsRecord :=
  { resource_name := resource_name
    name := record.name
    rtype := record.rtype
    targets := [record.value]
    ttl := record.ttl.getD TTL
    zone := zone
    prio := record.prio }

/-- `DnsRecord.append_target`: `self.targets.append(value)`. -/
def DnsRecord.append_target (d : DnsRecord) (value : String) : DnsRecord :=
  { d with targets := d.targets ++ [value] }

/-- The argument list of the external `akamai.DnsRecord(...)` call built by
`DnsRecord.create_record`; fields not passed by a branch stay `none`. -/
structure ProvisionedRecord where
  resource_name : String
  recordtype : String
  ttl : Int
  zone : String
  name : String
  targets : List String
  priority : Option Int := none
  weight : Option Int := none
  port : Option Int := none
deriving DecidableEq

/-- Worker for `pySplit`: walks the character list, accumulating the
current token in reverse; whitespace closes the token, and empty tokens
are never emitted. -/
def splitWsChars : List Char → List Char → List String
  | [], acc => if acc.isEmpty then [] else [String.mk acc.reverse]
  | c :: cs, acc =>
    if c.isWhitespace then
      if acc.isEmpty then splitWsChars cs []
      else String.mk acc.reverse :: splitWsChars cs []
    else splitWsChars cs (c :: acc)

/-- Python's `str.split()` with no argument: split on runs of whitespace,
discarding empty pieces. -/
def pySplit (s : String) : List String :=
  splitWsChars s.data []

/-- Decimal digits to a number, or `none` at the first non-digit. -/
def digitsToNat : List Char → Nat → Option Nat
  | [], acc => some acc
  | c :: cs, acc =>
    if c.isDigit then digitsToNat cs (acc * 10 + (c.toNat - 48)) else none

/-- Python's `int()` on a token: an optional sign followed by decimal
digits; anything else raises ValueError, modelled as `none`. -/
def pyInt? (s : String) : Option Int :=
  match s.data with
  | [] => none
  | '-' :: cs =>
    if cs.isEmpty then none else (digitsToNat cs 0).map (fun n => -(n : Int))
  | '+' :: cs =>
    if cs.isEmpty then none else (digitsToNat cs 0).map (fun n => (n : Int))
  | cs => (digitsToNat cs 0).map (fun n => (n : Int))

/-- `DnsRecord.create_record` of `src/__main__.py`: for SRV the first
target is split into `weight port target` (`self.targets[0].split()`,
IndexError when fewer than three tokens, ValueError when `int()` fails —
both modelled as `none`); MX passes `priority = self.prio` through
unchanged; every other type passes `targets` verbatim.  A fall-through
(none of the three branches) would return Python `None`. -/
def DnsRecord.create_record (d : DnsRecord) : Option ProvisionedRecord :=
  if ¬ (d.rtype = "SRV" ∨ d.rtype = "MX") then
    some { resource_name := d.resource_name, recordtype := d.rtype, ttl := d.ttl,
           zone := d.zone, name := d.name, targets := d.targets }
  else if d.rtype = "SRV" then
    match d.targets with
    | [] => none
    | t :: _ =>
      match pySplit t with
      | w :: p :: tgt :: _ =>
        match pyInt? w, pyInt? p with
        | some wn, some pn =>
          some { resource_name := d.resource_name, recordtype := d.rtype, ttl := d.ttl,
                 zone := d.zone, name := d.name, priority := d.prio,
                 weight := some wn, port := some pn, targets := pySplit tgt }
        | _, _ => none
      | _ => none
  else if d.rtype = "MX" then
    some { resource_name := d.resource_name, recordtype := d.rtype, ttl := d.ttl,
           zone := d.zone, name := d.name, targets := d.targets, priority := d.prio }
  else
    none

/-- `record.get("prio", "")` as used when formatting the resource name:
an absent priority prints as the empty string. -/
def prioStr : Option Int → String
  | some p => toString p
  | none => ""

/-- `resource_name = "{}-{}{}".format(record["name"], record["type"], prio)`
(`src/__main__.py` line 186) — note the zone is not part of the key. -/
def resource_name (record : SourceRecord) : String :=
  record.name ++ "-" ++ record.rtype ++ prioStr record.prio

/-- The supported-type list of the zone loop's acceptance test. -/
def supportedTypes : List String :=
  ["A", "CNAME", "TXT", "MX", "SRV", "AAAA", "CAA", "AKAMAICDN", "NS"]

/-- The apex-NS test of the zone loop:
`record["type"] == "NS" and record["name"] == zone`. -/
def isApexNS (zone : String) (r : SourceRecord) : Bool :=
  r.rtype == "NS" && r.name == zone

/-- The acceptance test of the zone loop:
`record["type"] in [...] and len(record["value"]) < LIMIT`. -/
def accepts (r : SourceRecord) : Bool :=
  supportedTypes.contains r.rtype && decide (r.value.length < LIMIT)

/-- Ordered-dict lookup on the association-list model of `resource_list`. -/
def lookupA : List (String × DnsRecord) → String → Option DnsRecord
  | [], _ => none
  | (k, d) :: rest, key => if k = key then some d else lookupA rest key

/-- In-place update of the entry for an existing key, preserving the
dict's insertion order (`resource_list[resource_name]` assignment on an
existing key). -/
def updateA : List (String × DnsRecord) → String → (DnsRecord → DnsRecord) →
    List (String × DnsRecord)
  | [], _, _ => []
  | (k, d) :: rest, key, f =>
    if k = key then (k, f d) :: rest else (k, d) :: updateA rest key f

/-- The inner `for record in all_records:` loop of `src/__main__.py`
(lines 169–202) for one zone, threading the run-wide `resource_list` and
`missed_records` accumulators.  An apex NS record executes `break`,
ending the whole loop; an accepted record merges into the dict entry
keyed by `resource_name` or creates a new entry; a record longer than
`LIMIT` is appended to `missed_records`; anything else falls off the
`if`/`elif` chain untouched. -/
def processRecords (zone : String) :
    List SourceRecord → List (String × DnsRecord) → List SourceRecord →
    List (String × DnsRecord) × List SourceRecord
  | [], resource_list, missed => (resource_list, missed)
  | record :: rest, resource_list, missed =>
    if isApexNS zone record then
      (resource_list, missed)
    else if accepts record then
      match lookupA resource_list (resource_name record) with
      | some _ =>
          processRecords zone rest
            (updateA resource_list (resource_name record)
              (fun d => d.append_target record.value)) missed
      | none =>
          processRecords zone rest
            (resource_list ++
              [(resource_name record,
                DnsRecord.init (resource_name record) zone record)]) missed
    else if LIMIT < record.value.length then
      processRecords zone rest resource_list (missed ++ [record])
    else
      processRecords zone rest resource_list missed

/-- The outer `for zone in zone_list:` loop of `src/__main__.py`
(lines 161–204).  Each zone comes with the outcome of `op.get_zone(zone)`:
`Except.error` models the uncaught exception raised inside
`lookup_zones.py` — there is no try/except in the driver, so it aborts
the whole run.  An empty record list only triggers a warning. -/
def runZones :
    List (String × Except String (List SourceRecord)) →
    List (String × DnsRecord) → List SourceRecord →
    Except String (List (String × DnsRecord) × List SourceRecord)
  | [], resource_list, missed => .ok (resource_list, missed)
  | (zone, fetch) :: rest, resource_list, missed =>
    match fetch with
    | .error e => .error e
    | .ok records =>
      if 0 < records.length then
        let st := processRecords zone records resource_list missed
        runZones rest st.1 st.2
      else
        runZones rest resource_list missed

/-- The whole driver pass over `zone_list`, starting from the empty
run-wide accumulators `resource_list = {}` and `missed_records = []`. -/
def runMigration (zones : List (String × Except String (List SourceRecord))) :
    Except String (List (String × DnsRecord) × List SourceRecord) :=
  runZones zones [] []

/-- One page response of the OpenProvider API as seen by
`OpenProvider.get_zone`: either a non-ok HTTP status (which the code turns
into `raise Exception("something went wrong")`) or an ok page carrying
`data.total` and `data.results`. -/
inductive PageResult where
  | httpError
  | page (total : Nat) (results : List SourceRecord)

/-- The `while records_retrieved < total_records:` loop of
`OpenProvider.get_zone` (records path, `src/lookup_zones.py` lines 93–133),
with the API modelled as a function from the request offset to a page.
`records_retrieved` and the next `offset` both equal
`all_records.length`, exactly as in the code; `total_records` starts at 1
and is overwritten from the page body while it still equals 1.  The extra
fuel argument bounds the number of iterations; `none` means the loop has
not finished within that many iterations.  The returned `Nat` counts the
page requests issued. -/
def getZoneLoop (api : Nat → PageResult) :
    Nat → List SourceRecord → Nat → Nat →
    Option (Except String (List SourceRecord × Nat))
  | 0, _, _, _ => none
  | fuel + 1, all_records, total_records, requests =>
    if all_records.length < total_records then
      match api all_records.length with
      | .httpError => some (.error "something went wrong")
      | .page t results =>
        let total2 := if total_records = 1 then t else total_records
        if 0 < total2 then
          getZoneLoop api fuel (all_records ++ results) total2 (requests + 1)
        else
          some (.ok ([], requests + 1))
    else
      some (.ok (all_records, requests))

/-- `OpenProvider.get_zone(zone)`: run the page loop from the initial
state `all_records = []`, `total_records = 1`, offset 0. -/
def get_zone (api : Nat → PageResult) (fuel : Nat) :
    Option (Except String (List SourceRecord × Nat)) :=
  getZoneLoop api fuel [] 1 0

/-- Records of a zone located before the first apex NS record — exactly
the records the inner loop still reaches before its `break`. -/
def takeBeforeApex (zone : String) (records : List SourceRecord) : List SourceRecord :=
  records.takeWhile (fun r => ! isApexNS zone r)

/-- The values of the reachable records that are accepted and aggregate
under a given resource key, in arrival order. -/
def acceptedValsFor (zone key : String) (records : List SourceRecord) : List String :=
  ((takeBeforeApex zone records).filter
    (fun r => accepts r && resource_name r == key)).map (fun r => r.value)

/-- How a batch of newly accepted values extends an (optional) existing
target list: appended to an existing entry, or seeding a fresh one. -/
def combineTargets : Option (List String) → List String → Option (List String)
  | some ts, vs => some (ts ++ vs)
  | none, vs => if vs.isEmpty then none else some vs

/-! ### Concrete inputs used to instantiate the theorems -/

/-- An A record as a zone named `www` would deliver it. -/
def recA1 : SourceRecord := { name := "www", rtype := "A", value := "1.2.3.4" }

/-- A second A record with the same name, type and (absent) priority but a
different value, owned by a different zone in the scenarios below. -/
def recA2 : SourceRecord := { name := "www", rtype := "A", value := "5.6.7.8" }

/-- A generic record used to fill simulated API pages. -/
def rec750 : SourceRecord := { name := "www.example.com", rtype := "A", value := "1.2.3.4" }

/-- Simulated API reporting `total = 750` with page size 500: a full page
at offset 0 and a 250-item page at offset 500. -/
def api750 : Nat → PageResult := fun offset =>
  if offset = 0 then .page 750 (List.replicate 500 rec750)
  else if offset = 500 then .page 750 (List.replicate 250 rec750)
  else .httpError

/-- Simulated API reporting `total = 0`. -/
def api0 : Nat → PageResult := fun _ => .page 0 []

/-- Simulated API whose first page succeeds (total 750, 500 items) and
whose second page fails with a non-success HTTP status. -/
def apiFail2 : Nat → PageResult := fun offset =>
  if offset = 0 then .page 750 (List.replicate 500 rec750) else .httpError

/-- Simulated API answering every request with a one-record page. -/
def apiOneRecord : Nat → PageResult := fun _ => .page 1 [rec750]

/-- An apex NS record of the zone `z`: its name equals the zone. -/
def apexNSz : SourceRecord := { name := "z", rtype := "NS", value := "ns1.example.net" }

/-- An NS record for a subdomain of the zone `z`. -/
def subNS : SourceRecord := { name := "sub.z", rtype := "NS", value := "ns1.example.net" }

/-- A record of a type outside the supported list. -/
def recSOA : SourceRecord := { name := "soa", rtype := "SOA", value := "short" }

/-- A 255-character value: exactly `LIMIT` long. -/
def val255 : String := String.mk (List.replicate 255 'a')

/-- A TXT record whose value length is exactly `LIMIT`. -/
def rec255 : SourceRecord := { name := "t", rtype := "TXT", value := val255 }

/-- A 256-character value: strictly longer than `LIMIT`. -/
def val256 : String := String.mk (List.replicate 256 'a')

/-- A TXT record whose value length is `LIMIT + 1`. -/
def rec256 : SourceRecord := { name := "u", rtype := "TXT", value := val256 }

/-- An SRV record whose value holds only two whitespace-separated tokens. -/
def srvBad : SourceRecord :=
  { name := "s", rtype := "SRV", value := "1 443", prio := some 100 }

/-- The well-formed SRV record of the spec's worked example. -/
def srvGood : SourceRecord :=
  { name := "sip", rtype := "SRV", value := "1 443 sipdir.online.lync.com",
    prio := some 100 }

/-- An MX record with no `prio` key. -/
def mxNoPrio : SourceRecord := { name := "m", rtype := "MX", value := "mail.example.com" }

/-- An A record that carries an explicit `ttl` of zero. -/
def recTtl0 : SourceRecord :=
  { name := "a", rtype := "A", value := "1.2.3.4", ttl := some 0 }

/-- An API that keeps answering a successful page with an empty `results`
list while reporting a positive `total`. -/
def emptyPageApi : Nat → PageResult := fun _ => .page 5 []

/-! ### Association-list and list helper lemmas -/

theorem combineTargets_nil (o : Option (List String)) : combineTargets o [] = o := by
  cases o <;> simp [combineTargets]

theorem lookupA_append_of_none (l1 l2 : List (String × DnsRecord)) (key : String)
    (h : lookupA l1 key = none) : lookupA (l1 ++ l2) key = lookupA l2 key := by
  induction l1 with
  | nil => simp
  | cons e rest ih =>
    obtain ⟨k, d⟩ := e
    by_cases hk : k = key
    · simp [lookupA, hk] at h
    · simp only [lookupA, hk, if_false, List.cons_append] at h ⊢
      exact ih h

theorem lookupA_append_of_some (l1 l2 : List (String × DnsRecord)) (key : String)
    (d : DnsRecord) (h : lookupA l1 key = some d) :
    lookupA (l1 ++ l2) key = some d := by
  induction l1 with
  | nil => simp [lookupA] at h
  | cons e rest ih =>
    obtain ⟨k, d'⟩ := e
    by_cases hk : k = key
    · simp only [lookupA, hk, if_true] at h ⊢
      simpa using h
    · simp only [lookupA, hk, if_false, List.cons_append] at h ⊢
      exact ih h

theorem lookupA_singleton (k key : String) (d : DnsRecord) :
    lookupA [(k, d)] key = if k = key then some d else none := by
  simp [lookupA]

theorem lookupA_updateA (rl : List (String × DnsRecord)) (k key : String)
    (f : DnsRecord → DnsRecord) :
    lookupA (updateA rl k f) key =
      if k = key then (lookupA rl k).map f else lookupA rl key := by
  induction rl with
  | nil => by_cases hk : k = key <;> simp [lookupA, updateA, hk]
  | cons e rest ih =>
    obtain ⟨k', d⟩ := e
    by_cases hk' : k' = k
    · subst hk'
      by_cases hk : k' = key
      · simp [updateA, lookupA, hk]
      · simp [updateA, lookupA, hk]
    · by_cases hk : k' = key
      · subst hk
        have : ¬ k = k' := fun h => hk' h.symm
        simp [updateA, lookupA, hk', this]
      · simp [updateA, lookupA, hk', hk, ih]

theorem updateA_keys (rl : List (String × DnsRecord)) (k : String)
    (f : DnsRecord → DnsRecord) :
    (updateA rl k f).map Prod.fst = rl.map Prod.fst := by
  induction rl with
  | nil => simp [updateA]
  | cons e rest ih =>
    obtain ⟨k', d⟩ := e
    by_cases hk : k' = k <;> simp [updateA, hk, ih]

theorem lookupA_eq_none_iff (rl : List (String × DnsRecord)) (key : String) :
    lookupA rl key = none ↔ key ∉ rl.map Prod.fst := by
  induction rl with
  | nil => simp [lookupA]
  | cons e rest ih =>
    obtain ⟨k, d⟩ := e
    by_cases hk : k = key
    · subst hk
      simp [lookupA]
    · rw [show lookupA ((k, d) :: rest) key = lookupA rest key by simp [lookupA, hk], ih]
      simp only [List.map_cons, List.mem_cons, not_or]
      constructor
      · intro hnm
        exact ⟨fun h1 => hk h1.symm, hnm⟩
      · intro hnm
        exact hnm.2

theorem nodup_concat_of_not_mem (l : List String) (a : String)
    (h : l.Nodup) (ha : a ∉ l) : (l ++ [a]).Nodup := by
  induction l with
  | nil => simp
  | cons b rest ih =>
    rcases List.nodup_cons.mp h with ⟨hb, hrest⟩
    have ha' : a ∉ rest := fun hm => ha (List.mem_cons_of_mem _ hm)
    have hb' : b ∉ rest ++ [a] := by
      intro hm
      rcases List.mem_append.mp hm with hm | hm
      · exact hb hm
      · simp at hm
        exact ha (by simp [hm])
    exact List.nodup_cons.mpr ⟨hb', ih hrest ha'⟩

theorem takeWhile_append_of_all {α : Type} (p : α → Bool) (l1 l2 : List α)
    (h : ∀ a ∈ l1, p a = true) :
    (l1 ++ l2).takeWhile p = l1 ++ l2.takeWhile p := by
  induction l1 with
  | nil => simp
  | cons a rest ih =>
    have ha : p a = true := h a (by simp)
    have hrest : ∀ b ∈ rest, p b = true := fun b hb => h b (by simp [hb])
    simp [List.takeWhile_cons, ha, ih hrest]

/-! ### Unfolding lemmas for the inner record loop -/

theorem processRecords_cons_apex (zone : String) (r : SourceRecord)
    (rs : List SourceRecord) (rl : List (String × DnsRecord)) (m : List SourceRecord)
    (h : isApexNS zone r = true) :
    processRecords zone (r :: rs) rl m = (rl, m) := by
  simp [processRecords, h]

theorem processRecords_cons_update (zone : String) (r : SourceRecord)
    (rs : List SourceRecord) (rl : List (String × DnsRecord)) (m : List SourceRecord)
    (h1 : isApexNS zone r = false) (h2 : accepts r = true) (d : DnsRecord)
    (h3 : lookupA rl (resource_name r) = some d) :
    processRecords zone (r :: rs) rl m =
      processRecords zone rs
        (updateA rl (resource_name r) (fun x => x.append_target r.value)) m := by
  simp [processRecords, h1, h2, h3]

theorem processRecords_cons_new (zone : String) (r : SourceRecord)
    (rs : List SourceRecord) (rl : List (String × DnsRecord)) (m : List SourceRecord)
    (h1 : isApexNS zone r = false) (h2 : accepts r = true)
    (h3 : lookupA rl (resource_name r) = none) :
    processRecords zone (r :: rs) rl m =
      processRecords zone rs
        (rl ++ [(resource_name r, DnsRecord.init (resource_name r) zone r)]) m := by
  simp [processRecords, h1, h2, h3]

theorem processRecords_cons_long (zone : String) (r : SourceRecord)
    (rs : List SourceRecord) (rl : List (String × DnsRecord)) (m : List SourceRecord)
    (h1 : isApexNS zone r = false) (h2 : accepts r = false)
    (h3 : LIMIT < r.value.length) :
    processRecords zone (r :: rs) rl m = processRecords zone rs rl (m ++ [r]) := by
  simp [processRecords, h1, h2, h3]

theorem processRecords_cons_drop (zone : String) (r : SourceRecord)
    (rs : List SourceRecord) (rl : List (String × DnsRecord)) (m : List SourceRecord)
    (h1 : isApexNS zone r = false) (h2 : accepts r = false)
    (h3 : ¬ LIMIT < r.value.length) :
    processRecords zone (r :: rs) rl m = processRecords zone rs rl m := by
  simp [processRecords, h1, h2, h3]

theorem takeBeforeApex_cons_apex (zone : String) (r : SourceRecord)
    (rs : List SourceRecord) (h : isApexNS zone r = true) :
    takeBeforeApex zone (r :: rs) = [] := by
  simp [takeBeforeApex, List.takeWhile_cons, h]

theorem takeBeforeApex_cons (zone : String) (r : SourceRecord)
    (rs : List SourceRecord) (h : isApexNS zone r = false) :
    takeBeforeApex zone (r :: rs) = r :: takeBeforeApex zone rs := by
  simp [takeBeforeApex, List.takeWhile_cons, h]

theorem acceptedValsFor_cons_skip (zone key : String) (r : SourceRecord)
    (rs : List SourceRecord) (hap : isApexNS zone r = false)
    (h : (accepts r && resource_name r == key) = false) :
    acceptedValsFor zone key (r :: rs) = acceptedValsFor zone key rs := by
  simp only [acceptedValsFor, takeBeforeApex_cons zone r rs hap, List.filter_cons, h,
    if_false, Bool.false_eq_true]

theorem acceptedValsFor_cons_take (zone key : String) (r : SourceRecord)
    (rs : List SourceRecord) (hap : isApexNS zone r = false)
    (h2 : accepts r = true) (hkey : resource_name r = key) :
    acceptedValsFor zone key (r :: rs) = r.value :: acceptedValsFor zone key rs := by
  simp only [acceptedValsFor, takeBeforeApex_cons zone r rs hap, List.filter_cons, h2,
    hkey, beq_self_eq_true, Bool.and_self, if_true, List.map_cons]

/-! ### Main invariants of the aggregation loop -/

/-- Full characterization of one entry of the run-wide `resource_list`
after processing a zone's records: the targets stored under a key are
the previously stored targets followed by the values of exactly those
reachable, accepted records whose `resource_name` equals the key, in
arrival order. -/
theorem processRecords_lookup (zone key : String) :
    ∀ (records : List SourceRecord) (rl : List (String × DnsRecord))
      (missed : List SourceRecord),
    ((lookupA (processRecords zone records rl missed).1 key).map (fun d => d.targets)) =
      combineTargets ((lookupA rl key).map (fun d => d.targets))
        (acceptedValsFor zone key records) := by
  intro records
  induction records with
  | nil =>
    intro rl missed
    simp [processRecords, acceptedValsFor, takeBeforeApex, combineTargets_nil]
  | cons r rs ih =>
    intro rl missed
    by_cases hapex : isApexNS zone r = true
    · rw [processRecords_cons_apex zone r rs rl missed hapex]
      simp [acceptedValsFor, takeBeforeApex_cons_apex zone r rs hapex, combineTargets_nil]
    · have hap : isApexNS zone r = false := by
        simpa using hapex
      by_cases hacc : accepts r = true
      · by_cases hkey : resource_name r = key
        · -- the record aggregates under the key we are tracking
          rcases hl : lookupA rl (resource_name r) with _ | d
          · rw [processRecords_cons_new zone r rs rl missed hap hacc hl, ih]
            have hrlkey : lookupA rl key = none := hkey ▸ hl
            have hlook :
                lookupA (rl ++ [(resource_name r,
                    DnsRecord.init (resource_name r) zone r)]) key =
                  some (DnsRecord.init (resource_name r) zone r) := by
              rw [lookupA_append_of_none _ _ _ hrlkey, lookupA_singleton, if_pos hkey]
            rw [hlook, acceptedValsFor_cons_take zone key r rs hap hacc hkey, hrlkey]
            simp [combineTargets, DnsRecord.init]
          · rw [processRecords_cons_update zone r rs rl missed hap hacc d hl, ih]
            have hrlkey : lookupA rl key = some d := hkey ▸ hl
            rw [lookupA_updateA, if_pos hkey, hkey, hrlkey,
              acceptedValsFor_cons_take zone key r rs hap hacc hkey]
            simp [combineTargets, DnsRecord.append_target]
        · -- accepted, but under a different key: the tracked entry is unchanged
          have hskip : (accepts r && resource_name r == key) = false := by
            simp [hkey]
          rcases hl : lookupA rl (resource_name r) with _ | d
          · rw [processRecords_cons_new zone r rs rl missed hap hacc hl, ih,
              acceptedValsFor_cons_skip zone key r rs hap hskip]
            have : lookupA (rl ++ [(resource_name r,
                DnsRecord.init (resource_name r) zone r)]) key = lookupA rl key := by
              rcases hrl : lookupA rl key with _ | d'
              · rw [lookupA_append_of_none _ _ _ hrl, lookupA_singleton, if_neg hkey]
              · exact lookupA_append_of_some _ _ _ _ hrl
            rw [this]
          · rw [processRecords_cons_update zone r rs rl missed hap hacc d hl, ih,
              acceptedValsFor_cons_skip zone key r rs hap hskip,
              lookupA_updateA, if_neg hkey]
      · have hacc' : accepts r = false := by
          simpa using hacc
        have hskip : (accepts r && resource_name r == key) = false := by
          simp [hacc']
        by_cases hlong : LIMIT < r.value.length
        · rw [processRecords_cons_long zone r rs rl missed hap hacc' hlong, ih,
            acceptedValsFor_cons_skip zone key r rs hap hskip]
        · rw [processRecords_cons_drop zone r rs rl missed hap hacc' hlong, ih,
            acceptedValsFor_cons_skip zone key r rs hap hskip]

/-- Full characterization of `missed_records` after processing one zone:
exactly the reachable records (before any apex-NS `break`) whose value
is strictly longer than `LIMIT` are appended, in arrival order. -/
theorem processRecords_missed (zone : String) :
    ∀ (records : List SourceRecord) (rl : List (String × DnsRecord))
      (missed : List SourceRecord),
    (processRecords zone records rl missed).2 =
      missed ++ (takeBeforeApex zone records).filter
        (fun r => decide (LIMIT < r.value.length)) := by
  intro records
  induction records with
  | nil =>
    intro rl missed
    simp [processRecords, takeBeforeApex]
  | cons r rs ih =>
    intro rl missed
    by_cases hapex : isApexNS zone r = true
    · rw [processRecords_cons_apex zone r rs rl missed hapex,
        takeBeforeApex_cons_apex zone r rs hapex]
      simp
    · have hap : isApexNS zone r = false := by
        simpa using hapex
      rw [takeBeforeApex_cons zone r rs hap]
      by_cases hacc : accepts r = true
      · have hshort : ¬ LIMIT < r.value.length := by
          have := hacc
          simp only [accepts, Bool.and_eq_true, decide_eq_true_eq] at this
          omega
        rcases hl : lookupA rl (resource_name r) with _ | d
        · rw [processRecords_cons_new zone r rs rl missed hap hacc hl, ih]
          simp [List.filter_cons, hshort]
        · rw [processRecords_cons_update zone r rs rl missed hap hacc d hl, ih]
          simp [List.filter_cons, hshort]
      · have hacc' : accepts r = false := by
          simpa using hacc
        by_cases hlong : LIMIT < r.value.length
        · rw [processRecords_cons_long zone r rs rl missed hap hacc' hlong, ih]
          simp [List.filter_cons, hlong]
        · rw [processRecords_cons_drop zone r rs rl missed hap hacc' hlong, ih]
          simp [List.filter_cons, hlong]

/-- The inner loop keeps the dict keys of `resource_list` unique: a new
key is appended only when it is not yet present. -/
theorem processRecords_nodup (zone : String) :
    ∀ (records : List SourceRecord) (rl : List (String × DnsRecord))
      (missed : List SourceRecord),
    (rl.map Prod.fst).Nodup →
    (((processRecords zone records rl missed).1).map Prod.fst).Nodup := by
  intro records
  induction records with
  | nil =>
    intro rl missed h
    simpa [processRecords] using h
  | cons r rs ih =>
    intro rl missed h
    by_cases hapex : isApexNS zone r = true
    · rw [processRecords_cons_apex zone r rs rl missed hapex]
      exact h
    · have hap : isApexNS zone r = false := by
        simpa using hapex
      by_cases hacc : accepts r = true
      · rcases hl : lookupA rl (resource_name r) with _ | d
        · rw [processRecords_cons_new zone r rs rl missed hap hacc hl]
          refine ih _ _ ?_
          have hnm : resource_name r ∉ rl.map Prod.fst :=
            (lookupA_eq_none_iff rl (resource_name r)).mp hl
          have : ((rl ++ [(resource_name r,
              DnsRecord.init (resource_name r) zone r)]).map Prod.fst) =
              rl.map Prod.fst ++ [resource_name r] := by
            simp
          rw [this]
          exact nodup_concat_of_not_mem _ _ h hnm
        · rw [processRecords_cons_update zone r rs rl missed hap hacc d hl]
          refine ih _ _ ?_
          rw [updateA_keys]
          exact h
      · have hacc' : accepts r = false := by
          simpa using hacc
        by_cases hlong : LIMIT < r.value.length
        · rw [processRecords_cons_long zone r rs rl missed hap hacc' hlong]
          exact ih _ _ h
        · rw [processRecords_cons_drop zone r rs rl missed hap hacc' hlong]
          exact ih _ _ h

/-- Any per-entry property is preserved by an in-place update whose
function preserves it. -/
theorem updateA_pres (P : DnsRecord → Prop) :
    ∀ (rl : List (String × DnsRecord)) (k : String) (f : DnsRecord → DnsRecord),
    (∀ e ∈ rl, P e.2) → (∀ d, P d → P (f d)) →
    ∀ e ∈ updateA rl k f, P e.2 := by
  intro rl
  induction rl with
  | nil =>
    intro k f h hf e he
    simp [updateA] at he
  | cons e0 rest ih =>
    intro k f h hf e he
    obtain ⟨k', d⟩ := e0
    by_cases hk : k' = k
    · rw [updateA, if_pos hk] at he
      rcases List.mem_cons.mp he with he | he
      · subst he
        exact hf d (h (k', d) (by simp))
      · exact h e (List.mem_cons_of_mem _ he)
    · rw [updateA, if_neg hk] at he
      rcases List.mem_cons.mp he with he | he
      · subst he
        exact h (k', d) (by simp)
      · exact ih k f (fun x hx => h x (List.mem_cons_of_mem _ hx)) hf e he

/-- Every `DnsRecord` ever put into `resource_list` by the inner loop is
seeded (or updated, preserving `P`) from a reachable, accepted record. -/
theorem processRecords_pres (zone : String) (P : DnsRecord → Prop)
    (hseed : ∀ r : SourceRecord, isApexNS zone r = false → accepts r = true →
      P (DnsRecord.init (resource_name r) zone r))
    (happ : ∀ d v, P d → P (d.append_target v)) :
    ∀ (records : List SourceRecord) (rl : List (String × DnsRecord))
      (missed : List SourceRecord),
    (∀ e ∈ rl, P e.2) →
    ∀ e ∈ (processRecords zone records rl missed).1, P e.2 := by
  intro records
  induction records with
  | nil =>
    intro rl missed h e he
    rw [processRecords] at he
    exact h e he
  | cons r rs ih =>
    intro rl missed h e he
    by_cases hapex : isApexNS zone r = true
    · rw [processRecords_cons_apex zone r rs rl missed hapex] at he
      exact h e he
    · have hap : isApexNS zone r = false := by
        simpa using hapex
      by_cases hacc : accepts r = true
      · rcases hl : lookupA rl (resource_name r) with _ | d
        · rw [processRecords_cons_new zone r rs rl missed hap hacc hl] at he
          refine ih _ _ ?_ e he
          intro x hx
          rcases List.mem_append.mp hx with hx | hx
          · exact h x hx
          · simp at hx
            rw [hx]
            exact hseed r hap hacc
        · rw [processRecords_cons_update zone r rs rl missed hap hacc d hl] at he
          refine ih _ _ ?_ e he
          exact updateA_pres P rl (resource_name r) _ h
            (fun d' hd' => happ d' r.value hd')
      · have hacc' : accepts r = false := by
          simpa using hacc
        by_cases hlong : LIMIT < r.value.length
        · rw [processRecords_cons_long zone r rs rl missed hap hacc' hlong] at he
          exact ih _ _ h e he
        · rw [processRecords_cons_drop zone r rs rl missed hap hacc' hlong] at he
          exact ih _ _ h e he

/-- The outer loop keeps the run-wide dict keys unique. -/
theorem runZones_nodup :
    ∀ (zones : List (String × Except String (List SourceRecord)))
      (rl : List (String × DnsRecord)) (missed : List SourceRecord)
      (out : List (String × DnsRecord) × List SourceRecord),
    (rl.map Prod.fst).Nodup → runZones zones rl missed = .ok out →
    (out.1.map Prod.fst).Nodup := by
  intro zones
  induction zones with
  | nil =>
    intro rl missed out h hrun
    rw [runZones] at hrun
    cases hrun
    exact h
  | cons zf rest ih =>
    intro rl missed out h hrun
    obtain ⟨zone, fetch⟩ := zf
    match fetch with
    | .error e => simp [runZones] at hrun
    | .ok records =>
      rw [runZones] at hrun
      by_cases hlen : 0 < records.length
      · rw [if_pos hlen] at hrun
        exact ih _ _ _ (processRecords_nodup zone records rl missed h) hrun
      · rw [if_neg hlen] at hrun
        exact ih _ _ _ h hrun

/-! ### Pagination loop lemmas -/

theorem emptyPageApi_loop_stuck :
    ∀ (fuel requests : Nat), getZoneLoop emptyPageApi fuel [] 5 requests = none := by
  intro fuel
  induction fuel with
  | zero =>
    intro requests
    rfl
  | succ f ih =>
    intro requests
    show getZoneLoop emptyPageApi (f + 1) [] 5 requests = none
    rw [getZoneLoop]
    simp only [List.length_nil, emptyPageApi]
    norm_num
    exact ih (requests + 1)

/-- If every successful page carries at least one result, the `while`
loop of `get_zone` finishes (possibly by raising) within some bound,
shrinking the gap `total - retrieved` at every step. -/
theorem getZoneLoop_terminates (api : Nat → PageResult)
    (h : ∀ o t results, api o = .page t results → results ≠ []) :
    ∀ (k : Nat) (all : List SourceRecord) (total requests : Nat),
    total ≤ all.length + k → (total = 1 → all ≠ []) →
    ∃ fuel, (getZoneLoop api fuel all total requests).isSome := by
  intro k
  induction k with
  | zero =>
    intro all total requests hle h1
    refine ⟨1, ?_⟩
    have hnlt : ¬ all.length < total := by omega
    rw [getZoneLoop, if_neg hnlt]
    rfl
  | succ k ih =>
    intro all total requests hle h1
    by_cases hlt : all.length < total
    · cases hapi : api all.length with
      | httpError =>
        refine ⟨1, ?_⟩
        rw [getZoneLoop, if_pos hlt, hapi]
        rfl
      | page t results =>
        have hne : results ≠ [] := h _ _ _ hapi
        have htot : total ≠ 1 := by
          intro h1'
          have hnil := h1 h1'
          have hlen : all.length = 0 := by omega
          exact hnil (List.eq_nil_of_length_eq_zero hlen)
        have hres : 0 < results.length := List.length_pos.mpr hne
        obtain ⟨f, hf⟩ := ih (all ++ results) total (requests + 1)
          (by simp only [List.length_append]; omega)
          (fun h1' => absurd h1' htot)
        refine ⟨f + 1, ?_⟩
        rw [getZoneLoop, if_pos hlt, hapi]
        simp only [htot, if_neg, ite_false]
        have hpos : 0 < total := by omega
        rw [if_pos hpos]
        exact hf
    · refine ⟨1, ?_⟩
      rw [getZoneLoop, if_neg hlt]
      rfl

/-! ### Claim theorems -/

set_option maxRecDepth 10000 in
/-- Claim C7: with page size 500 and a simulated API reporting total 750,
`get_zone` issues exactly 2 page requests and returns exactly the 750
items; with a simulated API reporting total 0 it issues exactly 1 request
and returns the empty list. -/
theorem c7_pagination_counts :
    get_zone api750 10 = some (.ok (List.replicate 750 rec750, 2)) ∧
    get_zone api0 10 = some (.ok ([], 1)) := by
  constructor
  · rfl
  · rfl

/-- Claim C10: the accepted SRV record with value
"1 443 sipdir.online.lync.com" and priority 100 is aggregated under the
key "sip-SRV100" and provisioned with priority 100, weight 1 (first
token), port 443 (second token) and the third token as sole target. -/
theorem c10_srv_decoding :
    processRecords "example.com" [srvGood] [] [] =
      ([("sip-SRV100", DnsRecord.init "sip-SRV100" "example.com" srvGood)], []) ∧
    (DnsRecord.init "sip-SRV100" "example.com" srvGood).create_record =
      some { resource_name := "sip-SRV100", recordtype := "SRV", ttl := 3600,
             zone := "example.com", name := "sip",
             targets := ["sipdir.online.lync.com"],
             priority := some 100, weight := some 1, port := some 443 } := by
  constructor
  · rfl
  · decide

/-- Claim C1 counterexample: two records that agree on name, type and
priority but belong to different zones are nonetheless merged into the
single resource "www-A", which keeps the first zone — the key built by
the code does not contain the zone, and `resource_list` is shared by all
zones of the run. -/
theorem c1_counterexample :
    runMigration [("zone1.com", .ok [recA1]), ("zone2.com", .ok [recA2])] =
      .ok ([("www-A",
        { resource_name := "www-A", name := "www", rtype := "A",
          targets := ["1.2.3.4", "5.6.7.8"], ttl := 3600,
          zone := "zone1.com", prio := none })], []) := by
  rfl

theorem runZones_error_prefix (zone e : String)
    (rest : List (String × Except String (List SourceRecord))) :
    ∀ (pre : List (String × Except String (List SourceRecord)))
      (rl : List (String × DnsRecord)) (missed : List SourceRecord),
    (∀ zf ∈ pre, ∃ records, zf.2 = Except.ok records) →
    runZones (pre ++ (zone, .error e) :: rest) rl missed = .error e := by
  intro pre
  induction pre with
  | nil =>
    intro rl missed h
    rfl
  | cons zf pre' ih =>
    intro rl missed h
    obtain ⟨z, f⟩ := zf
    obtain ⟨records, hf⟩ := h (z, f) (by simp)
    simp only at hf
    subst hf
    rw [List.cons_append, runZones]
    by_cases hlen : 0 < records.length
    · rw [if_pos hlen]
      exact ih _ _ (fun x hx => h x (List.mem_cons_of_mem _ hx))
    · rw [if_neg hlen]
      exact ih _ _ (fun x hx => h x (List.mem_cons_of_mem _ hx))

set_option maxRecDepth 10000 in
/-- Claim C2 counterexample: the second page of one zone's listing fails
with a non-success status, `get_zone` raises ("something went wrong"),
and the driver has no try/except: the run aborts with that exception, no
warning is recorded, and the following zone — whose own listing would
succeed — contributes nothing to any final output. -/
theorem c2_counterexample :
    get_zone apiFail2 10 = some (.error "something went wrong") ∧
    runMigration [("zone1.com", .error "something went wrong"),
                  ("zone2.com", .ok [recA2])] = .error "something went wrong" := by
  constructor
  · rfl
  · rfl

/-- Claim C2 (amended): a transport failure while listing one zone aborts
the whole run, not just that zone: however many zones were already
processed successfully, the exception propagates out of the zone loop
and no zone after the failing one is processed. -/
theorem c2_amended (pre rest : List (String × Except String (List SourceRecord)))
    (zone e : String)
    (h : ∀ zf ∈ pre, ∃ records, zf.2 = Except.ok records) :
    runMigration (pre ++ (zone, .error e) :: rest) = .error e :=
  runZones_error_prefix zone e rest pre [] [] h

/-- Witness for `c2_amended`: one successfully processed zone before the
failing one, one zone after it. -/
theorem c2_witness :
    runMigration ([("zone0.com", .ok [recA1])] ++ ("zone1.com", .error "boom") ::
      [("zone2.com", .ok [recA2])]) = .error "boom" :=
  c2_amended [("zone0.com", .ok [recA1])] [("zone2.com", .ok [recA2])]
    "zone1.com" "boom"
    (by
      intro zf hzf
      simp only [List.mem_singleton] at hzf
      exact ⟨[recA1], by rw [hzf]⟩)

/-- Claim C3 counterexample: a record of an unsupported type (SOA) with a
short value, and an apex NS record, both vanish: neither reaches
`resource_list` nor `missed_records`, with no trace of why. -/
theorem c3_counterexample :
    processRecords "z" [recSOA] [] [] = ([], []) ∧
    processRecords "z" [apexNSz] [] [] = ([], []) := by
  constructor
  · rfl
  · rfl

/-- Claim C3 (amended): only reachable records strictly longer than
`LIMIT` are recorded in `missed_records`; records of unsupported types,
values of length exactly `LIMIT`, the apex NS record itself and every
record after it in the zone's stream are dropped with no trace in either
output. -/
theorem c3_amended (zone : String) (records : List SourceRecord) :
    (processRecords zone records [] []).2 =
      (takeBeforeApex zone records).filter
        (fun r => decide (LIMIT < r.value.length)) := by
  simpa using processRecords_missed zone records [] []

/-- Claim C9 counterexample: a record carrying `ttl = 0` keeps ttl 0 in
the DnsRecord — the default 3600 applies only when the key is absent,
not when it is zero. -/
theorem c9_counterexample :
    recTtl0.ttl = some 0 ∧ (DnsRecord.init "a-A" "z" recTtl0).ttl = 0 ∧
    (DnsRecord.init "a-A" "z" recTtl0).ttl ≠ TTL := by
  refine ⟨rfl, rfl, by decide⟩

/-- Claim C9 (amended): the DnsRecord ttl is the configured default 3600
exactly when the record's ttl field is absent; when the field is present
its value — including zero — is kept verbatim. -/
theorem c9_amended (rn zone : String) (r : SourceRecord) :
    (r.ttl = none → (DnsRecord.init rn zone r).ttl = TTL) ∧
    (∀ t, r.ttl = some t → (DnsRecord.init rn zone r).ttl = t) := by
  constructor
  · intro h
    simp [DnsRecord.init, h]
  · intro t h
    simp [DnsRecord.init, h]

/-- Witness for `c9_amended`: a record without ttl gets 3600, the
`ttl = 0` record keeps 0. -/
theorem c9_witness :
    (DnsRecord.init "www-A" "z" recA1).ttl = TTL ∧
    (DnsRecord.init "a-A" "z" recTtl0).ttl = 0 :=
  ⟨(c9_amended "www-A" "z" recA1).1 rfl, (c9_amended "a-A" "z" recTtl0).2 0 rfl⟩

/-- Claim C1 (amended): two SourceRecords are merged into the same
resource exactly when they agree on (name, type, priority-or-empty): the
targets stored under a key are precisely the values of the accepted
reachable records whose `resource_name` equals that key, in arrival
order; and the resource keys are unique across the whole run (hence in
particular within each zone) — but the key omits the zone, and
`resource_list` is shared by all zones, so agreement of name, type and
priority across different zones also merges. -/
theorem c1_amended :
    (∀ zones rl missed, runMigration zones = .ok (rl, missed) →
      (rl.map Prod.fst).Nodup) ∧
    (∀ zone key records,
      (lookupA (processRecords zone records [] []).1 key).map (fun d => d.targets) =
        combineTargets none (acceptedValsFor zone key records)) := by
  constructor
  · intro zones rl missed hrun
    exact runZones_nodup zones [] [] (rl, missed) (by simp) hrun
  · intro zone key records
    simpa [lookupA] using processRecords_lookup zone key records [] []

/-- Witness for `c1_amended` at a concrete one-zone run. -/
theorem c1_witness :
    (([("www-A", DnsRecord.init "www-A" "zone1.com" recA1)] :
        List (String × DnsRecord)).map Prod.fst).Nodup ∧
    (lookupA (processRecords "zone1.com" [recA1] [] []).1 "www-A").map
        (fun d => d.targets) =
      combineTargets none (acceptedValsFor "zone1.com" "www-A" [recA1]) :=
  ⟨c1_amended.1 [("zone1.com", .ok [recA1])]
      [("www-A", DnsRecord.init "www-A" "zone1.com" recA1)] [] rfl,
   c1_amended.2 "zone1.com" "www-A" [recA1]⟩

/-- Claim C4 counterexample: an apex NS record does not merely get
skipped — its `break` ends the zone's record loop, so the subdomain NS
record right after it (which the claim says is always accepted) is never
processed: both outputs stay empty. -/
theorem c4_counterexample :
    subNS.rtype = "NS" ∧ subNS.name ≠ "z" ∧
    processRecords "z" [apexNSz, subNS] [] [] = ([], []) := by
  refine ⟨rfl, by decide, rfl⟩

/-- Claim C4 (amended): an NS record whose name equals the zone is never
provisioned (no entry of the resource list is an apex NS), but it also
stops the processing of all later records of that zone; an NS record for
a subdomain is accepted provided it is reached — no apex NS record
precedes it in the zone's stream — and its value is shorter than
`LIMIT`. -/
theorem c4_amended :
    (∀ zone records e, e ∈ (processRecords zone records [] []).1 →
      ¬ (e.2.rtype = "NS" ∧ e.2.name = zone)) ∧
    (∀ zone pre r post, (∀ p ∈ pre, isApexNS zone p = false) →
      r.rtype = "NS" → r.name ≠ zone → r.value.length < LIMIT →
      ∃ d, lookupA (processRecords zone (pre ++ r :: post) [] []).1
            (resource_name r) = some d ∧ r.value ∈ d.targets) := by
  constructor
  · intro zone records e he
    refine processRecords_pres zone
      (fun d => ¬ (d.rtype = "NS" ∧ d.name = zone)) ?_ ?_ records [] [] ?_ e he
    · intro r hap hacc hcon
      obtain ⟨h1, h2⟩ := hcon
      simp only [DnsRecord.init] at h1 h2
      simp [isApexNS, h1, h2] at hap
    · intro d v hP hcon
      obtain ⟨h1, h2⟩ := hcon
      simp only [DnsRecord.append_target] at h1 h2
      exact hP ⟨h1, h2⟩
    · intro x hx
      simp at hx
  · intro zone pre r post hpre hNS hname hlen
    have hapr : isApexNS zone r = false := by
      simp [isApexNS, hNS, hname]
    have hacc : accepts r = true := by
      simp [accepts, supportedTypes, hNS, hlen]
    have htake : takeBeforeApex zone (pre ++ r :: post) =
        pre ++ r :: takeBeforeApex zone post := by
      unfold takeBeforeApex
      rw [takeWhile_append_of_all _ _ _ (fun p hp => by simp [hpre p hp])]
      simp [List.takeWhile_cons, hapr]
    have hmem : r.value ∈ acceptedValsFor zone (resource_name r) (pre ++ r :: post) := by
      unfold acceptedValsFor
      rw [htake]
      refine List.mem_map.mpr ⟨r, List.mem_filter.mpr ⟨by simp, by simp [hacc]⟩, rfl⟩
    have hlook := processRecords_lookup zone (resource_name r) (pre ++ r :: post) [] []
    simp only [lookupA, Option.map_none'] at hlook
    have hcomb : combineTargets none
        (acceptedValsFor zone (resource_name r) (pre ++ r :: post)) =
        some (acceptedValsFor zone (resource_name r) (pre ++ r :: post)) := by
      rcases hvals : acceptedValsFor zone (resource_name r) (pre ++ r :: post) with
        _ | ⟨a, l⟩
      · rw [hvals] at hmem
        simp at hmem
      · simp [combineTargets]
    rw [hcomb] at hlook
    rcases Option.map_eq_some'.mp hlook with ⟨d, hd, hdt⟩
    exact ⟨d, hd, hdt ▸ hmem⟩

/-- Witness for `c4_amended`: the entry built from the subdomain NS
record is not an apex NS, and the subdomain NS record is accepted when
it is the first record of the zone. -/
theorem c4_witness :
    (¬ ((("sub.z-NS", DnsRecord.init "sub.z-NS" "z" subNS) :
        String × DnsRecord).2.rtype = "NS" ∧
        (("sub.z-NS", DnsRecord.init "sub.z-NS" "z" subNS) :
        String × DnsRecord).2.name = "z")) ∧
    (∃ d, lookupA (processRecords "z" ([] ++ subNS :: []) [] []).1
        (resource_name subNS) = some d ∧ subNS.value ∈ d.targets) :=
  ⟨c4_amended.1 "z" [subNS] ("sub.z-NS", DnsRecord.init "sub.z-NS" "z" subNS)
      (by decide),
   c4_amended.2 "z" [] subNS [] (by simp) rfl (by decide) (by decide)⟩

set_option maxRecDepth 10000 in
/-- Claim C5 counterexample: a record whose value has length exactly
`LIMIT` (255) satisfies `len(value) >= LIMIT`, is not accepted, and yet
is NOT added to `missed_records` either — the recording branch requires
a strict `len(value) > LIMIT`. -/
theorem c5_counterexample :
    LIMIT ≤ rec255.value.length ∧ processRecords "z" [rec255] [] [] = ([], []) := by
  refine ⟨by decide, rfl⟩

/-- Claim C5 (amended): a reachable record strictly longer than `LIMIT`
is recorded in `missed_records`; and no value of length `>= LIMIT` ever
reaches any resource's targets (every stored target is strictly shorter
than `LIMIT`) — but a record of length exactly `LIMIT` is dropped
without being recorded, and records cut off by an apex-NS `break` are
not recorded either. -/
theorem c5_amended :
    (∀ zone records r, r ∈ takeBeforeApex zone records →
      LIMIT < r.value.length → r ∈ (processRecords zone records [] []).2) ∧
    (∀ zone records key d v,
      lookupA (processRecords zone records [] []).1 key = some d →
      v ∈ d.targets → v.length < LIMIT) := by
  constructor
  · intro zone records r hr hlong
    rw [processRecords_missed zone records [] []]
    simp only [List.nil_append]
    exact List.mem_filter.mpr ⟨hr, by simp [hlong]⟩
  · intro zone records key d v hd hv
    have hlook := processRecords_lookup zone key records [] []
    simp only [lookupA, Option.map_none'] at hlook
    rw [hd, Option.map_some'] at hlook
    have hdt : d.targets = acceptedValsFor zone key records := by
      rcases hvals : acceptedValsFor zone key records with _ | ⟨a, l⟩
      · rw [hvals] at hlook
        simp [combineTargets] at hlook
      · rw [hvals] at hlook
        simp only [combineTargets, List.isEmpty_cons, ite_false,
          Bool.false_eq_true, Option.some.injEq] at hlook
        exact hlook
    rw [hdt] at hv
    rcases List.mem_map.mp hv with ⟨r', hr', hval⟩
    rcases List.mem_filter.mp hr' with ⟨-, hcond⟩
    rw [Bool.and_eq_true] at hcond
    obtain ⟨hacc, -⟩ := hcond
    simp only [accepts, Bool.and_eq_true, decide_eq_true_eq] at hacc
    rw [← hval]
    exact hacc.2

set_option maxRecDepth 10000 in
/-- Witness for `c5_amended`: the 256-character record lands in
`missed_records`, and the stored target "1.2.3.4" is shorter than
`LIMIT`. -/
theorem c5_witness :
    rec256 ∈ (processRecords "z" [rec256] [] []).2 ∧
    ("1.2.3.4" : String).length < LIMIT :=
  ⟨c5_amended.1 "z" [rec256] rec256 (by decide) (by decide),
   c5_amended.2 "z" [recA1] "www-A" (DnsRecord.init "www-A" "z" recA1)
     "1.2.3.4" rfl (by decide)⟩

/-- Claim C6 counterexample: against an API whose successful pages carry
an empty `results` list while reporting `total = 5`, the `while` loop of
`get_zone` repeats the same request forever — no amount of fuel makes it
finish, because `records_retrieved` never advances. -/
theorem c6_counterexample :
    ¬ ∃ fuel, (get_zone emptyPageApi fuel).isSome = true := by
  rintro ⟨fuel, hf⟩
  cases fuel with
  | zero => simp [get_zone, getZoneLoop] at hf
  | succ f =>
    have hstep : get_zone emptyPageApi (f + 1) = getZoneLoop emptyPageApi f [] 5 1 := by
      show getZoneLoop emptyPageApi (f + 1) [] 1 0 = _
      rw [getZoneLoop]
      norm_num [emptyPageApi]
    rw [hstep, emptyPageApi_loop_stuck] at hf
    simp at hf

/-- Claim C6 (amended): `get_zone` terminates — the loop issues finitely
many requests, advancing the offset by the number of items retrieved so
far and stopping once the retrieved count reaches the total reported by
the first page (or an error/zero total ends it) — provided every
successful page carries at least one result; a successful page with an
empty `results` list and a positive total makes the loop repeat the same
request forever. -/
theorem c6_amended (api : Nat → PageResult)
    (h : ∀ o t results, api o = .page t results → results ≠ []) :
    ∃ fuel, (get_zone api fuel).isSome = true := by
  cases hapi : api 0 with
  | httpError =>
    refine ⟨1, ?_⟩
    show (getZoneLoop api 1 [] 1 0).isSome = true
    rw [getZoneLoop]
    norm_num [hapi]
  | page t results =>
    have hne := h _ _ _ hapi
    by_cases ht : 0 < t
    · obtain ⟨f, hf⟩ := getZoneLoop_terminates api h t results t 1
        (by omega) (fun _ => hne)
      refine ⟨f + 1, ?_⟩
      show (getZoneLoop api (f + 1) [] 1 0).isSome = true
      rw [getZoneLoop]
      norm_num [hapi, ht]
      exact hf
    · have ht0 : t = 0 := by omega
      refine ⟨1, ?_⟩
      show (getZoneLoop api 1 [] 1 0).isSome = true
      rw [getZoneLoop]
      norm_num [hapi, ht0]

/-- Witness for `c6_amended`: an API whose every page holds one record. -/
theorem c6_witness : ∃ fuel, (get_zone apiOneRecord fuel).isSome = true :=
  c6_amended apiOneRecord
    (by
      intro o t results hpage
      have : PageResult.page 1 [rec750] = PageResult.page t results := hpage
      cases this
      simp)

/-- Claim C8 counterexample: an MX record without `prio` is not recorded
as a rejection — it is accepted and handed to provisioning with
`priority = None`; and an SRV record whose value has only two tokens is
likewise accepted, but its later `create_record` call crashes with an
IndexError (modelled as `none`) instead of producing a rejection. -/
theorem c8_counterexample :
    (DnsRecord.init "s-SRV100" "z" srvBad).create_record = none ∧
    processRecords "z" [mxNoPrio] [] [] =
      ([("m-MX", DnsRecord.init "m-MX" "z" mxNoPrio)], []) ∧
    (DnsRecord.init "m-MX" "z" mxNoPrio).create_record =
      some { resource_name := "m-MX", recordtype := "MX", ttl := 3600, zone := "z",
             name := "m", targets := ["mail.example.com"], priority := none } := by
  refine ⟨by decide, rfl, by decide⟩

/-- Claim C8 (amended): neither shape defect yields a recorded rejection:
an MX record without `prio` is provisioned with `priority = None` (no
default, no rejection, no crash), while an SRV record whose first target
has fewer than three whitespace-separated tokens makes `create_record`
fail (IndexError, modelled as `none`) rather than record a rejection. -/
theorem c8_amended :
    (∀ (rn zone : String) (r : SourceRecord), r.rtype = "MX" → r.prio = none →
      ∃ p, (DnsRecord.init rn zone r).create_record = some p ∧
        p.priority = none) ∧
    (∀ d : DnsRecord, d.rtype = "SRV" →
      (∀ t ts, d.targets = t :: ts → (pySplit t).length < 3) →
      d.create_record = none) := by
  constructor
  · intro rn zone r hmx hprio
    refine ⟨{ resource_name := rn, recordtype := r.rtype, ttl := r.ttl.getD TTL,
              zone := zone, name := r.name, targets := [r.value],
              priority := none }, ?_, rfl⟩
    unfold DnsRecord.create_record
    simp [DnsRecord.init, hmx, hprio]
  · intro d hsrv htok
    unfold DnsRecord.create_record
    have h1 : ¬ ¬ (d.rtype = "SRV" ∨ d.rtype = "MX") := by simp [hsrv]
    rw [if_neg h1, if_pos hsrv]
    cases htargets : d.targets with
    | nil => rfl
    | cons t ts =>
      have hlt := htok t ts htargets
      rcases hsp : pySplit t with - | ⟨w, - | ⟨p, - | ⟨tgt, rest3⟩⟩⟩
      · simp [hsp]
      · simp [hsp]
      · simp [hsp]
      · rw [hsp] at hlt
        simp at hlt
        omega

/-- Witness for `c8_amended` at the concrete MX-without-priority and
two-token SRV records. -/
theorem c8_witness :
    (∃ p, (DnsRecord.init "m-MX" "z" mxNoPrio).create_record = some p ∧
      p.priority = none) ∧
    (DnsRecord.init "s-SRV100" "z" srvBad).create_record = none :=
  ⟨c8_amended.1 "m-MX" "z" mxNoPrio rfl rfl,
   c8_amended.2 (DnsRecord.init "s-SRV100" "z" srvBad) rfl
     (by
       intro t ts h
       have ht : t = "1 443" := by
         have : ["1 443"] = t :: ts := h
         cases this
         rfl
       rw [ht]
       decide)⟩
